import Mathlib

/-!
Shallow embedding of the storygamer core (src/lib): the typed variable store,
the item/inventory model, the play engine's action executor, trigger
evaluation and destination application (src/lib/app/core.rs,
src/lib/types/{variable,condition,item}.rs, src/lib/utils.rs), and the
loader's validation/resolution pass (src/lib/parser/mod.rs).

Machine integers: Rust `i32` values are embedded as `Int`; additions the Rust
code performs at i32 width are modelled with `wrapAdd32` (release-mode
two's-complement wrapping). The reference-counted page graph
(`Rc<RefCell<Page>>`) is embedded by keying pages by their unique `id` string:
`Game.pages` is the loaded graph, an `Rc` to a page is represented by its id,
and `LinkDest::Page(Either<PageID, Rc<..>>)` becomes a `Sum` of a textual id
(Left, pre-resolution) and a resolved page id (Right). `HashMap`/`VecDeque`
are embedded as association lists / lists. Panics (`unwrap`, indexing a
missing key, `unreachable!`) surface as `RunErr.panicked`; the nested
item-effect recursion of `run_link_actions`, which Rust bounds only by item
use counters, is driven by an explicit fuel parameter (`RunErr.outOfFuel`).
-/

namespace Storygamer

/-- Lower bound of Rust's `i32`. -/
def i32Min : Int := -(2 ^ 31)

/-- Upper bound of Rust's `i32`. -/
def i32Max : Int := 2 ^ 31 - 1

/-- `num_traits::clamp`: `if x < mn { mn } else if x > mx { mx } else { x }`. -/
def clampNt (x mn mx : Int) : Int :=
  if x < mn then mn else if x > mx then mx else x

/-- Two's-complement wrapping of an integer into i32 range: the result of a
Rust release-mode `i32` addition `a + b`. -/
def wrapAdd32 (a b : Int) : Int :=
  (a + b + 2 ^ 31) % 2 ^ 32 - 2 ^ 31

/-- `utils.rs` `Bounded::clamped` at `Self = i32`, `T = i32`:
`clamp(x, i32::MIN, i32::MAX)`. -/
def i32Clamped (x : Int) : Int := clampNt x i32Min i32Max

/-- `utils.rs` `ConvertBounded::convert_bounded` at `Self = i32`, `T = i32`:
clamp then the (identity) numeric cast `as_()`. -/
def i32ConvertBounded (x : Int) : Int := i32Clamped x

/-- `types/variable.rs` `Variable`: a tagged value (`i32` embedded as `Int`). -/
inductive Variable where
  | num (value : Int)
  | bool (value : Bool)
  | str (value : String)
deriving DecidableEq

/-- `types/variable.rs` `VarType`. -/
inductive VarType where
  | num
  | bool
  | str
deriving DecidableEq

/-- `Variable::type_`. -/
def Variable.type_ : Variable → VarType
  | .num _ => .num
  | .bool _ => .bool
  | .str _ => .str

/-- `Variable::type_eq`. -/
def Variable.typeEq (v other : Variable) : Bool :=
  v.type_ = other.type_

/-- `types/condition.rs` `ComparisonOp`. -/
inductive ComparisonOp where
  | EQ
  | NEQ
  | GT
  | GTE
  | LT
  | LTE
deriving DecidableEq

/-- `types/condition.rs` `Operation`. -/
structure Operation where
  name : String
  op : ComparisonOp
  value : Variable
deriving DecidableEq

/-- `types/condition.rs` `Condition` (runtime enum: `And`, `Or`, `Op`,
`HasItem`). -/
inductive Condition where
  | and (children : List Condition)
  | or (children : List Condition)
  | op (operation : Operation)
  | hasItem (name : String)

/-- `types/mod.rs` `LinkDest`. A `Page` destination carries
`Either<PageID, Rc<RefCell<Page>>>`: `.inl` is a raw textual page id (only
during parsing), `.inr` is a resolved reference, represented by the unique id
of the page it points at. -/
inductive LinkDest where
  | page (toPage : Sum String String)
  | currentPage
  | prevPage
  | endGame (msg : String)
deriving DecidableEq

/-- `types/mod.rs` `Prompt` (the Rust field `variable` is named `varName`
here because `variable` is a Lean keyword). -/
structure Prompt where
  text : String
  varName : Option String
deriving DecidableEq

/-- `types/mod.rs` `LinkAction`. -/
inductive LinkAction where
  | setVar (name : String) (value : Variable)
  | modNum (name : String) (value : Int)
  | toggleBool (name : String)
  | setDest (dest : LinkDest)
  | prompt (p : Prompt)
  | acquireItem (name : String)
  | dropItem (name : String)
  | useItem (name : String)
deriving DecidableEq

/-- `types/mod.rs` `LinkTrigger`. -/
structure LinkTrigger where
  condition : Condition
  actions : List LinkAction

/-- `types/mod.rs` `Link`. -/
structure Link where
  text : String
  dest : LinkDest
  requires : Option Condition
  triggers : List LinkTrigger
  actions : List LinkAction

/-- `types/mod.rs` `Page`. The `parents` back-references are informational
(weak, never read by the engine) and are not modelled. -/
structure Page where
  id : String
  title : Option String
  content : String
  prompt : Option String
  links : List Link

/-- `types/item.rs` `ItemDef` (`max_uses : Option<i32>`, absent = unlimited). -/
structure ItemDef where
  name : String
  description : Option String
  maxUses : Option Int
  effect : LinkAction
deriving DecidableEq

/-- `types/item.rs` `Item`: an instance of a definition plus a used-count.
The Rust field `def` (an `Rc<ItemDef>`) is named `defn` here because `def` is
a Lean keyword; item definitions are immutable, so the `Rc` sharing is
behaviorally a value. -/
structure Item where
  defn : ItemDef
  used : Int
deriving DecidableEq

/-- `Item::new`. -/
def Item.new (d : ItemDef) : Item := { defn := d, used := 0 }

/-- The effective maximum of `Item::mod_uses`:
`self.def.max_uses.unwrap_or(i32::MAX)`. -/
def effMax (d : ItemDef) : Int := d.maxUses.getD i32Max

/-- `Item::uses_left`: `max_uses.map(|uses| uses - self.used)`. -/
def Item.usesLeft (it : Item) : Option Int :=
  it.defn.maxUses.map (fun uses => uses - it.used)

/-- `Item::mod_uses`: clamp `used + n` (an i32 addition) into `[0, max]`,
store it, and return the applied difference. -/
def Item.modUses (it : Item) (n : Int) : Item × Int :=
  let max := effMax it.defn
  let used := clampNt (wrapAdd32 it.used n) 0 max
  let diff := used - it.used
  ({ it with used := used }, diff)

/-- `Item::use_once`: register one use; return the effect action iff the
used-count actually moved. -/
def Item.useOnce (it : Item) : Item × Option LinkAction :=
  let r := it.modUses 1
  (r.1, if r.2 = 0 then none else some r.1.defn.effect)

/-- Association-list lookup, embedding `HashMap::get` / `contains_key`. -/
def lookupA {α : Type} (k : String) : List (String × α) → Option α
  | [] => none
  | (k', v) :: rest => if k' = k then some v else lookupA k rest

/-- Association-list in-place update of an existing key, embedding the
`HashMap::get_mut` + write pattern (no-op when the key is absent). -/
def modifyA {α : Type} (k : String) (f : α → α) : List (String × α) → List (String × α)
  | [] => []
  | (k', v) :: rest => if k' = k then (k', f v) :: rest else (k', v) :: modifyA k f rest

/-- Association-list removal, embedding `HashMap::remove`. -/
def removeA {α : Type} (k : String) : List (String × α) → List (String × α)
  | [] => []
  | (k', v) :: rest => if k' = k then rest else (k', v) :: removeA k rest

/-- `app/core.rs` `HistoryItem`: the weak reference to a previously-current
page is represented by that page's id. -/
structure HistoryItem where
  page : String
  linkIdx : Option Nat
deriving DecidableEq

/-- `app/core.rs` `Game`. `pages` is the loaded, immutable story graph
(id-keyed), standing in for the `Rc` web; `currentPage` and `startingPage`
hold the ids of the pages their Rust counterparts point at. The Rust field
`variables` is named `vars` here because `variables` is reserved in Lean 4. -/
structure Game where
  pages : List (String × Page)
  startingPage : String
  currentPage : String
  currentLinkIdx : Option Nat
  history : List HistoryItem
  promptQueue : List Prompt
  vars : List (String × Variable)
  itemDefs : List (String × ItemDef)
  items : List (String × List Item)

/-- `Game::new`: positioned at the starting page, no history, no prompts, no
items held. -/
def Game.new (pages : List (String × Page)) (startingPage : String)
    (vars : List (String × Variable)) (itemDefs : List (String × ItemDef)) : Game :=
  { pages := pages
    startingPage := startingPage
    currentPage := startingPage
    currentLinkIdx := none
    history := []
    promptQueue := []
    vars := vars
    itemDefs := itemDefs
    items := [] }

/-- Abnormal outcomes of engine operations: a Rust panic (`unwrap` on a
missing link, indexing a missing map key, `unreachable!`), or exhaustion of
the explicit fuel bounding the nested item-effect recursion. -/
inductive RunErr where
  | panicked
  | outOfFuel
deriving DecidableEq

/-- `Game::run_link_actions`, with the loop-carried `final_dest` accumulator
made explicit (`fd`; the top-level Rust call starts it at `None`). Each arm
mirrors the corresponding `LinkAction` arm of the Rust `match`; the nested
`self.run_link_actions(vec![effect])` call of the `UseItem` arm is the
recursion the fuel bounds. -/
def runLinkActions : Nat → Game → List LinkAction → Option LinkDest →
    Except RunErr (Game × Option LinkDest)
  | _, g, [], fd => .ok (g, fd)
  | 0, _, _ :: _, _ => .error .outOfFuel
  | fuel + 1, g, action :: rest, fd =>
    match action with
    | .setVar name value =>
      runLinkActions fuel
        { g with vars := modifyA name (fun _ => value) g.vars } rest fd
    | .modNum name value =>
      runLinkActions fuel
        { g with vars := modifyA name (fun v =>
            match v with
            | .num x => .num (i32ConvertBounded (wrapAdd32 x value))
            | other => other) g.vars } rest fd
    | .toggleBool name =>
      runLinkActions fuel
        { g with vars := modifyA name (fun v =>
            match v with
            | .bool b => .bool (!b)
            | other => other) g.vars } rest fd
    | .setDest dest => runLinkActions fuel g rest (some dest)
    | .prompt p =>
      runLinkActions fuel { g with promptQueue := g.promptQueue ++ [p] } rest fd
    | .acquireItem name =>
      match lookupA name g.itemDefs with
      | none => .error .panicked
      | some d =>
        match lookupA name g.items with
        | some stack =>
          match stack.getLast? with
          | some prev =>
            let r := (Item.new d).modUses prev.used
            let prev' := (prev.modUses (-r.2)).1
            runLinkActions fuel
              { g with items :=
                  modifyA name (fun _ => stack.dropLast ++ [prev', r.1]) g.items } rest fd
          | none =>
            runLinkActions fuel
              { g with items := modifyA name (fun _ => stack ++ [Item.new d]) g.items } rest fd
        | none =>
          runLinkActions fuel
            { g with items := g.items ++ [(name, [Item.new d])] } rest fd
    | .dropItem name =>
      match lookupA name g.items with
      | none => runLinkActions fuel g rest fd
      | some stack =>
        if (stack.tail).isEmpty then
          runLinkActions fuel { g with items := removeA name g.items } rest fd
        else
          runLinkActions fuel
            { g with items := modifyA name (fun _ => stack.tail) g.items } rest fd
    | .useItem name =>
      match lookupA name g.items with
      | none => runLinkActions fuel g rest fd
      | some stack =>
        match stack with
        | [] => runLinkActions fuel g rest fd
        | item :: tl =>
          let r := item.useOnce
          match r.2 with
          | none =>
            runLinkActions fuel
              { g with items := modifyA name (fun _ => r.1 :: tl) g.items } rest fd
          | some effect =>
            let g₁ :=
              if r.1.usesLeft = some 0 then
                if tl.isEmpty then { g with items := removeA name g.items }
                else { g with items := modifyA name (fun _ => tl) g.items }
              else { g with items := modifyA name (fun _ => r.1 :: tl) g.items }
            match runLinkActions fuel g₁ [effect] none with
            | .error e => .error e
            | .ok (g₂, nd) =>
              runLinkActions fuel g₂ rest
                (match nd with
                 | some dv => some dv
                 | none => fd)

/-- `Game::eval_operation`: index the variable store (a missing key panics)
and apply the comparator; a tag mismatch hits `unreachable!` (a panic). -/
def evalOperation (g : Game) (name : String) (op : ComparisonOp) (value : Variable) :
    Except RunErr Bool :=
  match lookupA name g.vars with
  | none => .error .panicked
  | some var =>
    match op with
    | .EQ =>
      match var, value with
      | .num x, .num y => .ok (x = y)
      | .bool x, .bool y => .ok (x = y)
      | .str x, .str y => .ok (x = y)
      | _, _ => .error .panicked
    | .NEQ =>
      match var, value with
      | .num x, .num y => .ok (x ≠ y)
      | .bool x, .bool y => .ok (x ≠ y)
      | .str x, .str y => .ok (x ≠ y)
      | _, _ => .error .panicked
    | .GT =>
      match var, value with
      | .num x, .num y => .ok (y < x)
      | _, _ => .error .panicked
    | .GTE =>
      match var, value with
      | .num x, .num y => .ok (y ≤ x)
      | _, _ => .error .panicked
    | .LT =>
      match var, value with
      | .num x, .num y => .ok (x < y)
      | _, _ => .error .panicked
    | .LTE =>
      match var, value with
      | .num x, .num y => .ok (x ≤ y)
      | _, _ => .error .panicked

mutual

/-- `Game::eval_condition`. `And`/`Or` short-circuit like `Iterator::all` /
`Iterator::any`; `HasItem` is `self.items.contains_key(name)`. -/
def evalCondition (g : Game) : Condition → Except RunErr Bool
  | .and children => evalCondAll g children
  | .or children => evalCondAny g children
  | .op operation => evalOperation g operation.name operation.op operation.value
  | .hasItem name => .ok (lookupA name g.items).isSome

/-- `Iterator::all` over child conditions: stop at the first `false`. -/
def evalCondAll (g : Game) : List Condition → Except RunErr Bool
  | [] => .ok true
  | c :: cs =>
    match evalCondition g c with
    | .error e => .error e
    | .ok true => evalCondAll g cs
    | .ok false => .ok false

/-- `Iterator::any` over child conditions: stop at the first `true`. -/
def evalCondAny (g : Game) : List Condition → Except RunErr Bool
  | [] => .ok false
  | c :: cs =>
    match evalCondition g c with
    | .error e => .error e
    | .ok true => .ok true
    | .ok false => evalCondAny g cs

end

/-- `Game::eval_link_triggers`, with the loop-carried `final_dest`
accumulator made explicit (`fd`; the Rust call starts it at `None`). Each
trigger whose condition holds runs its action list through
`run_link_actions`; a returned proposal overwrites the accumulator. -/
def evalLinkTriggers (fuel : Nat) (g : Game) :
    List LinkTrigger → Option LinkDest → Except RunErr (Game × Option LinkDest)
  | [], fd => .ok (g, fd)
  | t :: ts, fd =>
    match evalCondition g t.condition with
    | .error e => .error e
    | .ok false => evalLinkTriggers fuel g ts fd
    | .ok true =>
      match runLinkActions fuel g t.actions none with
      | .error e => .error e
      | .ok (g', nd) =>
        evalLinkTriggers fuel g' ts
          (match nd with
           | some dv => some dv
           | none => fd)

/-- `Game::eval_link_dest`. A still-textual `Page` destination hits
`expect_right` (a panic). A weak history reference always upgrades here: the
immutable graph owns every page for the lifetime of the `Game`, so the
`upgrade().unwrap()` of the `PrevPage` arm cannot fail and is embedded as the
plain id. -/
def evalLinkDest (g : Game) (linkDest : LinkDest) (linkIdx : Nat) :
    Except RunErr (Game × Option String) :=
  match linkDest with
  | .page toPage =>
    match toPage with
    | .inl _ => .error .panicked
    | .inr id =>
      if id ≠ g.currentPage then
        .ok ({ g with
                history := g.history ++ [{ page := g.currentPage, linkIdx := g.currentLinkIdx }]
                currentPage := id
                currentLinkIdx := some linkIdx }, none)
      else
        .ok (g, none)
  | .currentPage => .ok (g, none)
  | .prevPage =>
    match g.history.getLast? with
    | some item =>
      .ok ({ g with
              history := g.history.dropLast
              currentPage := item.page
              currentLinkIdx := item.linkIdx }, none)
    | none => .ok (g, none)
  | .endGame msg => .ok ({ g with currentLinkIdx := none }, some msg)

/-- `Game::follow_link`: snapshot the chosen link (`links.get(idx).unwrap()`
panics on an invalid index), run its actions, then its triggers — each pass
may overwrite the pending destination — and apply the result. Looking up
`currentPage` in the graph embeds dereferencing the `current_page` `Rc`,
which cannot dangle in Rust; on a well-formed post-load `Game` the lookup
succeeds. -/
def followLink (fuel : Nat) (g : Game) (linkIdx : Nat) :
    Except RunErr (Game × Option String) :=
  match lookupA g.currentPage g.pages with
  | none => .error .panicked
  | some page =>
    match page.links.get? linkIdx with
    | none => .error .panicked
    | some link =>
      match runLinkActions fuel g link.actions none with
      | .error e => .error e
      | .ok (g₁, aDest) =>
        match evalLinkTriggers fuel g₁ link.triggers none with
        | .error e => .error e
        | .ok (g₂, tDest) =>
          evalLinkDest g₂
            (match tDest with
             | some dv => dv
             | none =>
               match aDest with
               | some dv => dv
               | none => link.dest) linkIdx

/-- `Game::pop_prompt`: drain the prompt FIFO from the front. -/
def popPrompt (g : Game) : Option Prompt × Game :=
  match g.promptQueue with
  | [] => (none, g)
  | p :: rest => (some p, { g with promptQueue := rest })

/-- `errors.rs` `Error`, restricted to the validation errors the loader's
cleaning pass can raise (`parser/mod.rs` lines 38-183). `undeclaredItem`
embeds the `Error::undeclared_item` constructor those call sites use. -/
inductive Error where
  | undeclaredPageID (id : String)
  | undeclaredVariable (name : String)
  | badValueType (value : Variable) (expected : VarType)
  | badVariableType (varName : String) (varType : VarType) (expected : VarType)
  | undeclaredItem (name : String)
deriving DecidableEq

/-- `parser/mod.rs` `clean_link_dest`: a textual (`Left`) page reference is
looked up among the parsed pages' ids (`pages_clone`'s keys) and replaced by
a resolved (`Right`) reference, or fails with `UndeclaredPageID`. The weak
parent back-reference push is informational (and skipped by the Rust code
itself on a borrow conflict) and is not modelled. -/
def cleanLinkDest (parsedIds : List String) : LinkDest → Except Error LinkDest
  | .page (Sum.inl toPageId) =>
    if toPageId ∈ parsedIds then .ok (.page (.inr toPageId))
    else .error (.undeclaredPageID toPageId)
  | d => .ok d

/-- `parser/mod.rs` `clean_operation`: the referenced variable must be
declared; ordering comparators additionally require a numeric variable and a
numeric literal. -/
def cleanOperation (vars : List (String × Variable)) (operation : Operation) :
    Except Error Unit :=
  match lookupA operation.name vars with
  | none => .error (.undeclaredVariable operation.name)
  | some var =>
    match operation.op with
    | .GT | .GTE | .LT | .LTE =>
      if var.type_ ≠ .num then
        .error (.badVariableType operation.name var.type_ .num)
      else if operation.value.type_ ≠ .num then
        .error (.badValueType operation.value .num)
      else .ok ()
    | _ => .ok ()

mutual

/-- `parser/mod.rs` `clean_condition` (over the runtime `Condition` enum). -/
def cleanCondition (vars : List (String × Variable)) (items : List (String × ItemDef)) :
    Condition → Except Error Unit
  | .and children => cleanConditionList vars items children
  | .or children => cleanConditionList vars items children
  | .op operation => cleanOperation vars operation
  | .hasItem name =>
    if (lookupA name items).isSome then .ok () else .error (.undeclaredItem name)

/-- The `children.iter_mut()` loop of `clean_condition`. -/
def cleanConditionList (vars : List (String × Variable)) (items : List (String × ItemDef)) :
    List Condition → Except Error Unit
  | [] => .ok ()
  | c :: cs =>
    match cleanCondition vars items c with
    | .error e => .error e
    | .ok _ => cleanConditionList vars items cs

end

/-- `parser/mod.rs` `clean_action`: validate variable/item references and
literal tags; resolve the destination of a `SetDest`. -/
def cleanAction (vars : List (String × Variable)) (items : List (String × ItemDef))
    (parsedIds : List String) : LinkAction → Except Error LinkAction
  | .setVar name value =>
    match lookupA name vars with
    | some var =>
      if var.typeEq value then .ok (.setVar name value)
      else .error (.badValueType value var.type_)
    | none => .error (.undeclaredVariable name)
  | .modNum name value =>
    match lookupA name vars with
    | some (.num _) => .ok (.modNum name value)
    | some var => .error (.badVariableType name var.type_ .num)
    | none => .error (.undeclaredVariable name)
  | .toggleBool name =>
    match lookupA name vars with
    | some (.bool _) => .ok (.toggleBool name)
    | some var => .error (.badVariableType name var.type_ .bool)
    | none => .error (.undeclaredVariable name)
  | .setDest dest =>
    match cleanLinkDest parsedIds dest with
    | .error e => .error e
    | .ok dest' => .ok (.setDest dest')
  | .prompt p =>
    match p.varName with
    | some varName =>
      if (lookupA varName vars).isSome then .ok (.prompt p)
      else .error (.undeclaredVariable varName)
    | none => .ok (.prompt p)
  | .acquireItem name =>
    if (lookupA name items).isSome then .ok (.acquireItem name)
    else .error (.undeclaredItem name)
  | .dropItem name =>
    if (lookupA name items).isSome then .ok (.dropItem name)
    else .error (.undeclaredItem name)
  | .useItem name =>
    if (lookupA name items).isSome then .ok (.useItem name)
    else .error (.undeclaredItem name)

/-- The `actions.iter_mut()` loops of `parse`: clean each action in order,
stopping at the first error. -/
def cleanActions (vars : List (String × Variable)) (items : List (String × ItemDef))
    (parsedIds : List String) : List LinkAction → Except Error (List LinkAction)
  | [] => .ok []
  | a :: rest =>
    match cleanAction vars items parsedIds a with
    | .error e => .error e
    | .ok a' =>
      match cleanActions vars items parsedIds rest with
      | .error e => .error e
      | .ok rest' => .ok (a' :: rest')

/-- The per-trigger body of `parse`'s link loop: condition first, then the
trigger's actions. -/
def cleanTrigger (vars : List (String × Variable)) (items : List (String × ItemDef))
    (parsedIds : List String) (t : LinkTrigger) : Except Error LinkTrigger :=
  match cleanCondition vars items t.condition with
  | .error e => .error e
  | .ok _ =>
    match cleanActions vars items parsedIds t.actions with
    | .error e => .error e
    | .ok acts' => .ok { t with actions := acts' }

/-- The `link.triggers.iter_mut()` loop of `parse`. -/
def cleanTriggers (vars : List (String × Variable)) (items : List (String × ItemDef))
    (parsedIds : List String) : List LinkTrigger → Except Error (List LinkTrigger)
  | [] => .ok []
  | t :: rest =>
    match cleanTrigger vars items parsedIds t with
    | .error e => .error e
    | .ok t' =>
      match cleanTriggers vars items parsedIds rest with
      | .error e => .error e
      | .ok rest' => .ok (t' :: rest')

/-- The per-link body of `parse`'s page loop: destination, then triggers,
then the link's own actions, in that order. -/
def cleanLink (vars : List (String × Variable)) (items : List (String × ItemDef))
    (parsedIds : List String) (l : Link) : Except Error Link :=
  match cleanLinkDest parsedIds l.dest with
  | .error e => .error e
  | .ok dest' =>
    match cleanTriggers vars items parsedIds l.triggers with
    | .error e => .error e
    | .ok triggers' =>
      match cleanActions vars items parsedIds l.actions with
      | .error e => .error e
      | .ok actions' => .ok { l with dest := dest', triggers := triggers', actions := actions' }

/-- The `page.borrow_mut().links.iter_mut()` loop of `parse`. -/
def cleanLinks (vars : List (String × Variable)) (items : List (String × ItemDef))
    (parsedIds : List String) : List Link → Except Error (List Link)
  | [] => .ok []
  | l :: rest =>
    match cleanLink vars items parsedIds l with
    | .error e => .error e
    | .ok l' =>
      match cleanLinks vars items parsedIds rest with
      | .error e => .error e
      | .ok rest' => .ok (l' :: rest')

/-- Clean one parsed page's links. -/
def cleanPage (vars : List (String × Variable)) (items : List (String × ItemDef))
    (parsedIds : List String) (p : Page) : Except Error Page :=
  match cleanLinks vars items parsedIds p.links with
  | .error e => .error e
  | .ok links' => .ok { p with links := links' }

/-- The page loop of `parser/mod.rs` `parse` (lines 38-184): for each parsed
page, require its id to be declared in the settings (`UndeclaredPageID`
otherwise), then clean its links. `parsedIds` is the key set of the parsed
page map (`pages_clone`), against which link destinations resolve. The Rust
loop walks `HashMap` keys in unspecified order; the embedding walks the
parsed list in order. -/
def validatePagesAux (pageIds : List String) (vars : List (String × Variable))
    (items : List (String × ItemDef)) (parsedIds : List String) :
    List (String × Page) → Except Error (List (String × Page))
  | [] => .ok []
  | (pid, p) :: rest =>
    if pid ∈ pageIds then
      match cleanPage vars items parsedIds p with
      | .error e => .error e
      | .ok p' =>
        match validatePagesAux pageIds vars items parsedIds rest with
        | .error e => .error e
        | .ok rest' => .ok ((pid, p') :: rest')
    else .error (.undeclaredPageID pid)

/-- The validation/resolution pass of `parse` over an already-parsed page
set: settings-declared page ids `pageIds`, declared variables and item
templates, and the parsed pages (id-keyed, as produced by `read_pages`).
Returns the resolved graph or the first validation error; the entrypoint
extraction that follows it in `parse` consumes this result and cannot
un-fail it. -/
def validatePages (pageIds : List String) (vars : List (String × Variable))
    (items : List (String × ItemDef)) (pages : List (String × Page)) :
    Except Error (List (String × Page)) :=
  validatePagesAux pageIds vars items (pages.map Prod.fst) pages

/-!
Specification-side predicates used to state properties (not translations of
repository code): the holdings invariant, the textual page references a page
contains, and the "all non-page-id validations pass" predicate.
-/

/-- Holdings invariant: every entry of the item map carries a non-empty
stack of instances. -/
def itemsInv (g : Game) : Prop := ∀ p ∈ g.items, p.2 ≠ ([] : List Item)

/-- The raw textual page id of a destination, if it is still unresolved. -/
def destTextualRef : LinkDest → Option String
  | .page (Sum.inl s) => some s
  | _ => none

/-- Textual page references contained in one action. -/
def actionTextualRefs : LinkAction → List String
  | .setDest d => (destTextualRef d).toList
  | _ => []

/-- Textual page references contained in an action list. -/
def actionsTextualRefs (acts : List LinkAction) : List String :=
  (acts.map actionTextualRefs).flatten

/-- Textual page references contained in a link: its destination, its
triggers' actions, its own actions. -/
def linkTextualRefs (l : Link) : List String :=
  (destTextualRef l.dest).toList
    ++ (l.triggers.map (fun t => actionsTextualRefs t.actions)).flatten
    ++ actionsTextualRefs l.actions

/-- Textual page references contained in a page. -/
def pageTextualRefs (p : Page) : List String :=
  (p.links.map linkTextualRefs).flatten

/-- The non-page-id checks of `clean_action` pass for this action (page-id
resolution itself excluded). -/
def actionOtherOK (vars : List (String × Variable)) (items : List (String × ItemDef)) :
    LinkAction → Bool
  | .setVar name value =>
    match lookupA name vars with
    | some var => var.typeEq value
    | none => false
  | .modNum name _ =>
    match lookupA name vars with
    | some (.num _) => true
    | _ => false
  | .toggleBool name =>
    match lookupA name vars with
    | some (.bool _) => true
    | _ => false
  | .setDest _ => true
  | .prompt p =>
    match p.varName with
    | some varName => (lookupA varName vars).isSome
    | none => true
  | .acquireItem name => (lookupA name items).isSome
  | .dropItem name => (lookupA name items).isSome
  | .useItem name => (lookupA name items).isSome

mutual

/-- The checks of `clean_condition` pass for this condition. -/
def conditionOK (vars : List (String × Variable)) (items : List (String × ItemDef)) :
    Condition → Bool
  | .and children => conditionListOK vars items children
  | .or children => conditionListOK vars items children
  | .op operation =>
    match cleanOperation vars operation with
    | .ok _ => true
    | .error _ => false
  | .hasItem name => (lookupA name items).isSome

/-- `conditionOK` over a child list. -/
def conditionListOK (vars : List (String × Variable)) (items : List (String × ItemDef)) :
    List Condition → Bool
  | [] => true
  | c :: cs => conditionOK vars items c && conditionListOK vars items cs

end

/-- The non-page-id checks pass for every condition and action of this link. -/
def linkOtherOK (vars : List (String × Variable)) (items : List (String × ItemDef))
    (l : Link) : Bool :=
  l.triggers.all (fun t =>
      conditionOK vars items t.condition && t.actions.all (actionOtherOK vars items))
    && l.actions.all (actionOtherOK vars items)

/-- The non-page-id checks pass for every link of this page. -/
def pageOtherOK (vars : List (String × Variable)) (items : List (String × ItemDef))
    (p : Page) : Bool :=
  p.links.all (linkOtherOK vars items)

/-- The non-page-id checks pass for every parsed page of the document set. -/
def allPagesOtherOK (vars : List (String × Variable)) (items : List (String × ItemDef))
    (pages : List (String × Page)) : Prop :=
  ∀ pid p, (pid, p) ∈ pages → pageOtherOK vars items p = true

/-- The document set has a page-id defect: some parsed page's own id is
undeclared, or some textual link destination does not name a parsed page. -/
def hasPageIdDefect (pageIds : List String) (pages : List (String × Page)) : Prop :=
  (∃ pid p, (pid, p) ∈ pages ∧ pid ∉ pageIds) ∨
  (∃ pid p r, (pid, p) ∈ pages ∧ r ∈ pageTextualRefs p ∧ r ∉ pages.map Prod.fst)

/-- Discriminator: is this result an `UndeclaredPageID` error? -/
def isUndeclaredPageIDErr {α : Type} : Except Error α → Bool
  | .error (.undeclaredPageID _) => true
  | _ => false

/-!
Concrete instances used by witnesses and counterexamples.
-/

/-- A "torch" item template: 3 maximum uses, and an effect that proposes an
end-game destination when a use succeeds. -/
def torchDef : ItemDef :=
  { name := "torch", description := none, maxUses := some 3
    effect := .setDest (.endGame "the torch burns out") }

/-- Game holding a single integer variable at `i32::MAX`. -/
def c1Game : Game :=
  { pages := [], startingPage := "start", currentPage := "start", currentLinkIdx := none
    history := [], promptQueue := [], vars := [("n", .num 2147483647)]
    itemDefs := [], items := [] }

/-- A page with an empty link list. -/
def c2Page : Page :=
  { id := "start", title := none, content := "", prompt := none, links := [] }

/-- Game positioned on a page with no links: every index is invalid. -/
def c2Game : Game :=
  { pages := [("start", c2Page)], startingPage := "start", currentPage := "start"
    currentLinkIdx := none, history := [], promptQueue := [], vars := []
    itemDefs := [], items := [] }

/-- A link with static destination `end "D"`, an action proposing `end "A"`,
and an always-true trigger proposing `end "B"`. -/
def c3Link : Link :=
  { text := "go", dest := .endGame "D", requires := none
    triggers := [{ condition := .and [], actions := [.setDest (.endGame "B")] }]
    actions := [.setDest (.endGame "A")] }

/-- Page carrying `c3Link` as link 0. -/
def c3Page : Page :=
  { id := "start", title := none, content := "", prompt := none, links := [c3Link] }

/-- Game positioned on `c3Page`. -/
def c3Game : Game :=
  { pages := [("start", c3Page)], startingPage := "start", currentPage := "start"
    currentLinkIdx := none, history := [], promptQueue := [], vars := []
    itemDefs := [], items := [] }

/-- Game holding one torch instance with used-count 2 (one more use reaches
its maximum of 3). -/
def c4Game : Game :=
  { pages := [], startingPage := "start", currentPage := "start", currentLinkIdx := none
    history := [], promptQueue := [], vars := []
    itemDefs := [("torch", torchDef)], items := [("torch", [{ defn := torchDef, used := 2 }])] }

/-- Game holding one torch instance with used-count 2, about to acquire a
second torch. -/
def c5Game : Game :=
  { pages := [], startingPage := "start", currentPage := "start", currentLinkIdx := none
    history := [], promptQueue := [], vars := []
    itemDefs := [("torch", torchDef)], items := [("torch", [{ defn := torchDef, used := 2 }])] }

/-- Game holding one torch instance already at its maximum used-count of 3. -/
def c6Game : Game :=
  { pages := [], startingPage := "start", currentPage := "start", currentLinkIdx := none
    history := [], promptQueue := [], vars := []
    itemDefs := [("torch", torchDef)], items := [("torch", [{ defn := torchDef, used := 3 }])] }

/-- Link whose first action references an undeclared variable and whose
second link (see `c7MainPage`) references an unparsed page. -/
def c7Link1 : Link :=
  { text := "a", dest := .currentPage, requires := none, triggers := []
    actions := [.setVar "nope" (.num 0)] }

/-- Link whose textual destination "ghost" names no parsed page. -/
def c7Link2 : Link :=
  { text := "b", dest := .page (.inl "ghost"), requires := none, triggers := []
    actions := [] }

/-- A declared page whose earlier link fails variable validation while a
later link's destination is an undeclared page id. -/
def c7MainPage : Page :=
  { id := "main", title := none, content := "", prompt := none
    links := [c7Link1, c7Link2] }

/-- Parsed document set containing only `c7MainPage`. -/
def c7Pages : List (String × Page) := [("main", c7MainPage)]

/-- A page whose only defect is the unresolvable destination "ghost". -/
def c7CleanPage : Page :=
  { id := "main", title := none, content := "", prompt := none, links := [c7Link2] }

/-- Parsed document set containing only `c7CleanPage`. -/
def c7CleanPages : List (String × Page) := [("main", c7CleanPage)]

/-- A freshly constructed game knowing the torch template but holding
nothing. -/
def c10Game : Game := Game.new [] "start" [] [("torch", torchDef)]

/-!
General lemmas about the embedded helpers.
-/

/-- A successful association-list lookup returns a binding of the list. -/
theorem lookupA_mem {α : Type} {k : String} {v : α} {l : List (String × α)}
    (h : lookupA k l = some v) : (k, v) ∈ l := by
  induction l with
  | nil => simp [lookupA] at h
  | cons p rest ih =>
    obtain ⟨k', v'⟩ := p
    simp only [lookupA] at h
    split at h
    · next heq =>
      cases h
      subst heq
      exact List.mem_cons_self _ _
    · exact List.mem_cons_of_mem _ (ih h)

/-- Rewriting a key to the value it already holds leaves the list intact. -/
theorem modifyA_const_self {α : Type} {k : String} {v : α} {l : List (String × α)}
    (h : lookupA k l = some v) : modifyA k (fun _ => v) l = l := by
  induction l with
  | nil => rfl
  | cons p rest ih =>
    obtain ⟨k', v'⟩ := p
    simp only [lookupA] at h
    simp only [modifyA]
    split
    · next heq =>
      rw [if_pos heq] at h
      cases h
      rfl
    · next heq =>
      rw [if_neg heq] at h
      rw [ih h]

/-- An i32 addition that stays in range does not wrap. -/
theorem wrapAdd32_eq_of_bounds {a b : Int} (h1 : i32Min ≤ a + b) (h2 : a + b ≤ i32Max) :
    wrapAdd32 a b = a + b := by
  unfold wrapAdd32
  unfold i32Min at h1
  unfold i32Max at h2
  norm_num at h1 h2 ⊢
  rw [Int.emod_eq_of_lt (by omega) (by omega)]
  omega

/-- A clamp whose input is already inside the bounds is the identity. -/
theorem clampNt_eq_self {x mn mx : Int} (h1 : mn ≤ x) (h2 : x ≤ mx) :
    clampNt x mn mx = x := by
  unfold clampNt
  rw [if_neg (by omega), if_neg (by omega)]

/-- Clamping a nonnegative value below at 0 computes the minimum with the
upper bound. -/
theorem clampNt_nonneg_min {x mx : Int} (h : 0 ≤ x) :
    clampNt x 0 mx = min x mx := by
  unfold clampNt
  split
  · omega
  · split <;> omega

/-!
C1 — ModNum overflow behavior.
-/

/-- C1: for an Integer variable at `i32::MAX`, a `ModNum` with delta 1 stores
the wrapped value `i32::MIN`, not the claimed clamp of the mathematical sum
`i32::MAX + 1` (which is `i32::MAX`): the code adds at i32 width before the
(then vacuous) `convert_bounded` clamp, so the claim's "never wraps" fails. -/
theorem modNum_wraps_at_i32Max :
    runLinkActions 1 c1Game [.modNum "n" 1] none
        = .ok ({ c1Game with vars := [("n", .num (-2147483648))] }, none)
      ∧ i32Clamped (2147483647 + 1) = 2147483647
      ∧ (-2147483648 : Int) ≠ i32Clamped (2147483647 + 1) :=
  ⟨rfl, by decide, by decide⟩

/-!
C2 — invalid link index.
-/

/-- C2 counterexample: on a page with no links, `follow_link 0` panics
(`links.get(0).unwrap()`); there is no rejected-operation return to the
caller, so the claim that an invalid index "is reported back to the caller
as a rejected operation and the engine state is left unchanged" is false. -/
theorem followLink_invalid_idx_not_rejected :
    followLink 1 c2Game 0 = .error .panicked ∧ (followLink 1 c2Game 0).isOk = false :=
  ⟨rfl, rfl⟩

/-- C2 (amended): an out-of-range link index makes `follow_link` panic; the
panic happens while snapshotting the link, before any engine state is
mutated, and no rejected-operation result is ever produced. -/
theorem followLink_invalid_idx_panics (fuel : Nat) (g : Game) (idx : Nat) (page : Page)
    (hp : lookupA g.currentPage g.pages = some page)
    (hidx : page.links.length ≤ idx) :
    followLink fuel g idx = .error .panicked := by
  simp only [followLink, hp, List.get?_eq_none.mpr hidx]

/-- C2 witness: the amended theorem applied to the concrete linkless page. -/
theorem followLink_invalid_idx_panics_witness :
    followLink 2 c2Game 5 = .error .panicked :=
  followLink_invalid_idx_panics 2 c2Game 5 c2Page rfl (by decide)

/-!
C3 — last destination proposal wins.
-/

/-- C3: for a link with static destination `D`, an action proposing `A`, and
a later-evaluated trigger whose condition is true proposing `B`, following
the link applies `B`; and when neither pass proposes a destination, the
static destination is applied. -/
theorem followLink_last_proposal_wins :
    (∀ (fuel : Nat) (g : Game) (page : Page) (i : Nat) (l : Link)
        (A B D : LinkDest) (c : Condition),
      lookupA g.currentPage g.pages = some page →
      page.links.get? i = some l →
      l.dest = D →
      l.actions = [.setDest A] →
      l.triggers = [{ condition := c, actions := [.setDest B] }] →
      evalCondition g c = .ok true →
      followLink (fuel + 1) g i = evalLinkDest g B i)
    ∧ (∀ (fuel : Nat) (g : Game) (page : Page) (i : Nat) (l : Link) (g₁ g₂ : Game),
      lookupA g.currentPage g.pages = some page →
      page.links.get? i = some l →
      runLinkActions fuel g l.actions none = .ok (g₁, none) →
      evalLinkTriggers fuel g₁ l.triggers none = .ok (g₂, none) →
      followLink fuel g i = evalLinkDest g₂ l.dest i) := by
  constructor
  · intro fuel g page i l A B D c hp hi hdest hacts htrigs hc
    have h1 : runLinkActions (fuel + 1) g [.setDest A] none = .ok (g, some A) := by
      simp [runLinkActions]
    have h2 : runLinkActions (fuel + 1) g [.setDest B] none = .ok (g, some B) := by
      simp [runLinkActions]
    simp only [followLink, hp, hi, hacts, htrigs, h1, evalLinkTriggers, hc, h2]
  · intro fuel g page i l g₁ g₂ hp hi ha ht
    simp only [followLink, hp, hi, ha, ht]

/-- C3 witness: the concrete link with static destination `end "D"`, action
proposal `end "A"` and true-trigger proposal `end "B"` applies `end "B"`. -/
theorem followLink_last_proposal_wins_witness :
    followLink 1 c3Game 0 = evalLinkDest c3Game (.endGame "B") 0 :=
  followLink_last_proposal_wins.1 0 c3Game c3Page 0 c3Link
    (.endGame "A") (.endGame "B") (.endGame "D") (.and []) rfl rfl rfl rfl rfl rfl

/-!
C4 — a use that reaches the maximum removes the instance before the effect.
-/

/-- C4: a use-item action whose one more registered use reaches the front
instance's maximum pops the instance (removing the stack entry if now empty)
first, then runs the instance's effect through the same executor on that
already-updated state; the destination proposed by the nested execution
overrides the pending one exactly as a later action would. -/
theorem useItem_reaches_max_removes_then_effect (fuel : Nat) (g : Game) (name : String)
    (item : Item) (tl : List Item) (acts : List LinkAction) (fd : Option LinkDest) (m : Int)
    (hs : lookupA name g.items = some (item :: tl))
    (hm : item.defn.maxUses = some m)
    (hu : item.used = m - 1)
    (h1 : 1 ≤ m) (hM : m ≤ i32Max) :
    runLinkActions (fuel + 1) g (.useItem name :: acts) fd =
      match runLinkActions fuel
          (if tl.isEmpty then { g with items := removeA name g.items }
           else { g with items := modifyA name (fun _ => tl) g.items })
          [item.defn.effect] none with
      | .error e => .error e
      | .ok (g₂, nd) =>
        runLinkActions fuel g₂ acts
          (match nd with
           | some dv => some dv
           | none => fd) := by
  have hMax : effMax item.defn = m := by simp [effMax, hm]
  have hw : wrapAdd32 item.used 1 = m := by
    rw [hu]
    rw [wrapAdd32_eq_of_bounds (by unfold i32Min; omega) (by unfold i32Max at hM ⊢; omega)]
    omega
  have huse : item.useOnce = ({ item with used := m }, some item.defn.effect) := by
    simp only [Item.useOnce, Item.modUses, hMax, hw]
    rw [clampNt_eq_self (by omega) (by omega)]
    rw [if_neg (by omega)]
  have hleft : ({ item with used := m } : Item).usesLeft = some 0 := by
    simp [Item.usesLeft, hm]
  simp only [runLinkActions, hs, huse, hleft, reduceIte]

/-- C4 witness: using the torch at used-count 2 (max 3) removes its stack
entry and then fires its effect, whose proposed end-game destination is the
one returned. -/
theorem useItem_reaches_max_witness :
    runLinkActions 2 c4Game [.useItem "torch"] none
      = .ok ({ c4Game with items := [] }, some (.endGame "the torch burns out")) :=
  (useItem_reaches_max_removes_then_effect 1 c4Game "torch"
      { defn := torchDef, used := 2 } [] [] none 3 rfl rfl rfl
      (by decide) (by decide)).trans rfl

/-!
C5 — acquisition transfers the previous back instance's wear.
-/

/-- C5: acquiring an item whose stack's back instance has used-count `u`
appends a fresh instance whose used-count is `min u (new instance's
effective maximum)` and decreases the previous back instance's used-count by
exactly that transferred amount. -/
theorem acquireItem_transfers_uses (fuel : Nat) (g : Game) (name : String) (d : ItemDef)
    (stack : List Item) (prev : Item) (acts : List LinkAction) (fd : Option LinkDest)
    (hd : lookupA name g.itemDefs = some d)
    (hs : lookupA name g.items = some stack)
    (hb : stack.getLast? = some prev)
    (h0 : 0 ≤ prev.used)
    (h1 : prev.used ≤ effMax prev.defn)
    (h2 : prev.used ≤ i32Max)
    (h3 : 0 ≤ effMax d) :
    runLinkActions (fuel + 1) g (.acquireItem name :: acts) fd =
      runLinkActions fuel
        { g with items := modifyA name (fun _ =>
            stack.dropLast ++
              [{ prev with used := prev.used - min prev.used (effMax d) },
               { defn := d, used := min prev.used (effMax d) }]) g.items } acts fd := by
  have hw0 : wrapAdd32 0 prev.used = prev.used := by
    rw [wrapAdd32_eq_of_bounds (by unfold i32Min; omega) (by unfold i32Max at h2 ⊢; omega)]
    omega
  have hr : (Item.new d).modUses prev.used
      = ({ defn := d, used := min prev.used (effMax d) }, min prev.used (effMax d)) := by
    simp only [Item.new, Item.modUses, hw0]
    rw [clampNt_nonneg_min h0]
    simp
  have hwp : wrapAdd32 prev.used (-(min prev.used (effMax d))) = prev.used - min prev.used (effMax d) := by
    rw [wrapAdd32_eq_of_bounds (by unfold i32Min; omega) (by unfold i32Max at h2 ⊢; omega)]
    omega
  have hp : (prev.modUses (-(min prev.used (effMax d)))).1
      = { prev with used := prev.used - min prev.used (effMax d) } := by
    simp only [Item.modUses, hwp]
    rw [clampNt_eq_self (by omega) (by omega)]
  simp only [runLinkActions, hd, hs, hb, hr, hp]

/-- C5 witness: the claim's torch example — acquiring a torch (max uses 3)
while the previous torch has used-count 2 yields a new instance with
used-count `min 2 3 = 2` and resets the previous instance to 0. -/
theorem acquireItem_transfers_uses_witness :
    runLinkActions 1 c5Game [.acquireItem "torch"] none
      = .ok ({ c5Game with items := [("torch",
          [{ defn := torchDef, used := 0 }, { defn := torchDef, used := 2 }])] }, none) :=
  (acquireItem_transfers_uses 0 c5Game "torch" torchDef
      [{ defn := torchDef, used := 2 }] { defn := torchDef, used := 2 } [] none
      rfl rfl rfl (by decide) (by decide) (by decide) (by decide)).trans rfl

/-!
C6 — using an instance already at its maximum is a no-op.
-/

/-- C6: a use-item action on a front instance already at its maximum
used-count fires no effect, removes nothing, and leaves the holdings (and
the whole engine state) unchanged. -/
theorem useItem_at_max_noop (fuel : Nat) (g : Game) (name : String)
    (item : Item) (tl : List Item) (acts : List LinkAction) (fd : Option LinkDest) (m : Int)
    (hs : lookupA name g.items = some (item :: tl))
    (hm : item.defn.maxUses = some m)
    (hu : item.used = m)
    (h0 : 0 ≤ m) (hM : m ≤ i32Max - 1) :
    runLinkActions (fuel + 1) g (.useItem name :: acts) fd = runLinkActions fuel g acts fd := by
  have hMax : effMax item.defn = m := by simp [effMax, hm]
  have hw : wrapAdd32 item.used 1 = m + 1 := by
    rw [hu]
    rw [wrapAdd32_eq_of_bounds (by unfold i32Min; omega) (by unfold i32Max at hM ⊢; omega)]
  have hclamp : clampNt (m + 1) 0 m = m := by
    unfold clampNt
    rw [if_neg (by omega), if_pos (by omega)]
  have huse : item.useOnce = (item, none) := by
    simp only [Item.useOnce, Item.modUses, hMax, hw, hclamp]
    rw [if_pos (by omega)]
    rw [← hu]
  have hstep : runLinkActions (fuel + 1) g (.useItem name :: acts) fd
      = runLinkActions fuel { g with items := modifyA name (fun _ => item :: tl) g.items } acts fd := by
    simp only [runLinkActions, hs, huse]
  rw [hstep, modifyA_const_self hs]

/-- C6 witness: using the torch already at used-count 3 (max 3) leaves the
game state exactly as it was. -/
theorem useItem_at_max_noop_witness :
    runLinkActions 1 c6Game [.useItem "torch"] none = .ok (c6Game, none) :=
  (useItem_at_max_noop 0 c6Game "torch" { defn := torchDef, used := 3 } [] [] none 3
      rfl rfl rfl (by decide) (by decide)).trans rfl

/-!
C10 — non-empty stacks invariant and the HasItem test.
-/

/-- Non-emptiness survives `modifyA` when every rewritten value is
non-empty. -/
theorem mem_modifyA_ne_nil {k : String} {f : List Item → List Item}
    {l : List (String × List Item)}
    (hf : ∀ v, f v ≠ ([] : List Item)) (hl : ∀ p ∈ l, p.2 ≠ ([] : List Item)) :
    ∀ p ∈ modifyA k f l, p.2 ≠ ([] : List Item) := by
  induction l with
  | nil => intro p hp; simp [modifyA] at hp
  | cons q rest ih =>
    obtain ⟨k', v'⟩ := q
    intro p hp
    simp only [modifyA] at hp
    split at hp
    · rcases List.mem_cons.mp hp with h | h
      · subst h; exact hf v'
      · exact hl _ (List.mem_cons_of_mem _ h)
    · rcases List.mem_cons.mp hp with h | h
      · subst h; exact hl _ (List.mem_cons_self _ _)
      · exact ih (fun q hq => hl _ (List.mem_cons_of_mem _ hq)) _ h

/-- Every binding surviving `removeA` was a binding of the original list. -/
theorem mem_removeA {α : Type} {k : String} {l : List (String × α)} {p : String × α}
    (h : p ∈ removeA k l) : p ∈ l := by
  induction l with
  | nil => simp [removeA] at h
  | cons q rest ih =>
    simp only [removeA] at h
    split at h
    · exact List.mem_cons_of_mem _ h
    · rcases List.mem_cons.mp h with h' | h'
      · subst h'; exact List.mem_cons_self _ _
      · exact List.mem_cons_of_mem _ (ih h')

/-- C10: starting from a freshly constructed engine, whose holdings are
empty, every action execution preserves the invariant that each held item
name maps to a non-empty instance stack; consequently the `HasItem`
condition — a key-containment test — holds exactly when at least one
instance of the item is held. -/
theorem itemHoldings_invariant_hasItem :
    (∀ (pages : List (String × Page)) (startingPage : String)
        (vars : List (String × Variable)) (itemDefs : List (String × ItemDef)),
      itemsInv (Game.new pages startingPage vars itemDefs))
    ∧ (∀ (fuel : Nat) (g : Game) (acts : List LinkAction) (fd : Option LinkDest)
        (g' : Game) (d : Option LinkDest),
      itemsInv g → runLinkActions fuel g acts fd = .ok (g', d) → itemsInv g')
    ∧ (∀ (g : Game) (name : String) (stack : List Item),
      itemsInv g → lookupA name g.items = some stack → stack ≠ [])
    ∧ (∀ (g : Game) (name : String),
      itemsInv g →
      (evalCondition g (.hasItem name) = .ok true ↔
        ∃ stack, lookupA name g.items = some stack ∧ stack ≠ ([] : List Item))) := by
  have preserved : ∀ (fuel : Nat) (g : Game) (acts : List LinkAction) (fd : Option LinkDest)
      (g' : Game) (d : Option LinkDest),
      itemsInv g → runLinkActions fuel g acts fd = .ok (g', d) → itemsInv g' := by
    intro fuel
    induction fuel with
    | zero =>
      intro g acts fd g' d hg hrun
      cases acts with
      | nil =>
        simp only [runLinkActions] at hrun
        cases hrun
        exact hg
      | cons a rest =>
        simp only [runLinkActions] at hrun
        exact Except.noConfusion hrun
    | succ fuel ih =>
      intro g acts fd g' d hg hrun
      cases acts with
      | nil =>
        simp only [runLinkActions] at hrun
        cases hrun
        exact hg
      | cons a rest =>
        cases a with
        | setVar name value =>
          simp only [runLinkActions] at hrun
          refine ih _ _ _ _ _ ?_ hrun
          exact hg
        | modNum name value =>
          simp only [runLinkActions] at hrun
          refine ih _ _ _ _ _ ?_ hrun
          exact hg
        | toggleBool name =>
          simp only [runLinkActions] at hrun
          refine ih _ _ _ _ _ ?_ hrun
          exact hg
        | setDest dest =>
          simp only [runLinkActions] at hrun
          exact ih _ _ _ _ _ hg hrun
        | prompt p =>
          simp only [runLinkActions] at hrun
          refine ih _ _ _ _ _ ?_ hrun
          exact hg
        | acquireItem name =>
          simp only [runLinkActions] at hrun
          cases hdef : lookupA name g.itemDefs with
          | none =>
            simp only [hdef] at hrun
            exact Except.noConfusion hrun
          | some dfn =>
            simp only [hdef] at hrun
            cases hstack : lookupA name g.items with
            | none =>
              simp only [hstack] at hrun
              refine ih _ _ _ _ _ ?_ hrun
              intro p hp
              rcases List.mem_append.mp hp with h | h
              · exact hg _ h
              · rcases List.mem_cons.mp h with h' | h'
                · subst h'; simp
                · simp at h'
            | some stack =>
              simp only [hstack] at hrun
              cases hlast : stack.getLast? with
              | none =>
                simp only [hlast] at hrun
                refine ih _ _ _ _ _ ?_ hrun
                exact mem_modifyA_ne_nil (fun v => by simp) hg
              | some prev =>
                simp only [hlast] at hrun
                refine ih _ _ _ _ _ ?_ hrun
                exact mem_modifyA_ne_nil (fun v => by simp) hg
        | dropItem name =>
          simp only [runLinkActions] at hrun
          cases hstack : lookupA name g.items with
          | none =>
            simp only [hstack] at hrun
            exact ih _ _ _ _ _ hg hrun
          | some stack =>
            simp only [hstack] at hrun
            split at hrun
            · refine ih _ _ _ _ _ ?_ hrun
              intro p hp
              exact hg _ (mem_removeA hp)
            · next hne =>
              refine ih _ _ _ _ _ ?_ hrun
              refine mem_modifyA_ne_nil (fun v => ?_) hg
              intro hnil
              rw [hnil] at hne
              simp at hne
        | useItem name =>
          simp only [runLinkActions] at hrun
          cases hstack : lookupA name g.items with
          | none =>
            simp only [hstack] at hrun
            exact ih _ _ _ _ _ hg hrun
          | some stack =>
            simp only [hstack] at hrun
            cases stack with
            | nil => exact ih _ _ _ _ _ hg hrun
            | cons item tl =>
              cases heff : item.useOnce.2 with
              | none =>
                simp only [heff] at hrun
                refine ih _ _ _ _ _ ?_ hrun
                exact mem_modifyA_ne_nil (fun v => by simp) hg
              | some effect =>
                simp only [heff] at hrun
                split at hrun
                · exact Except.noConfusion hrun
                · rename_i g₂ nd heq
                  have hinv₂ : itemsInv g₂ := by
                    refine ih _ _ _ _ _ ?_ heq
                    split
                    · split
                      · intro p hp
                        exact hg _ (mem_removeA hp)
                      · next hne =>
                        refine mem_modifyA_ne_nil (fun v => ?_) hg
                        intro hnil
                        rw [hnil] at hne
                        simp at hne
                    · exact mem_modifyA_ne_nil (fun v => by simp) hg
                  exact ih _ _ _ _ _ hinv₂ hrun
  refine ⟨?_, preserved, ?_, ?_⟩
  · intro pages startingPage vars itemDefs p hp
    simp [Game.new] at hp
  · intro g name stack hg hl
    exact hg _ (lookupA_mem hl)
  · intro g name hg
    constructor
    · intro h
      simp only [evalCondition] at h
      cases h' : lookupA name g.items with
      | none => rw [h'] at h; simp at h
      | some stack =>
        exact ⟨stack, rfl, hg _ (lookupA_mem h')⟩
    · intro hx
      obtain ⟨stack, hl, _⟩ := hx
      simp only [evalCondition, hl]
      rfl

/-- C10 witness: the invariant holds of a fresh game, survives acquiring a
torch, and the HasItem iff holds at the resulting state. -/
theorem itemHoldings_invariant_hasItem_witness :
    itemsInv { c10Game with items := [("torch", [Item.new torchDef])] }
      ∧ (evalCondition { c10Game with items := [("torch", [Item.new torchDef])] }
          (.hasItem "torch") = .ok true ↔
        ∃ stack, lookupA "torch"
            ({ c10Game with items := [("torch", [Item.new torchDef])] } : Game).items
          = some stack ∧ stack ≠ ([] : List Item)) :=
  ⟨itemHoldings_invariant_hasItem.2.1 1 c10Game [.acquireItem "torch"] none
      { c10Game with items := [("torch", [Item.new torchDef])] } none
      (itemHoldings_invariant_hasItem.1 [] "start" [] [("torch", torchDef)]) rfl,
   itemHoldings_invariant_hasItem.2.2.2
      { c10Game with items := [("torch", [Item.new torchDef])] } "torch"
      (itemHoldings_invariant_hasItem.2.1 1 c10Game [.acquireItem "torch"] none
        { c10Game with items := [("torch", [Item.new torchDef])] } none
        (itemHoldings_invariant_hasItem.1 [] "start" [] [("torch", torchDef)]) rfl)⟩

/-!
C7 — undeclared page ids fail the load.
-/

/-- A destination that cleans successfully has its textual reference (if
any) among the parsed page ids. -/
theorem cleanLinkDest_ok_refs {parsedIds : List String} {d d' : LinkDest}
    (h : cleanLinkDest parsedIds d = .ok d') :
    ∀ r ∈ (destTextualRef d).toList, r ∈ parsedIds := by
  intro r hr
  cases d with
  | page toPage =>
    cases toPage with
    | inl s =>
      simp only [destTextualRef, Option.toList, List.mem_singleton] at hr
      subst hr
      simp only [cleanLinkDest] at h
      split at h
      · assumption
      · exact Except.noConfusion h
    | inr s => simp [destTextualRef] at hr
  | currentPage => simp [destTextualRef] at hr
  | prevPage => simp [destTextualRef] at hr
  | endGame msg => simp [destTextualRef] at hr

/-- An action that cleans successfully has all its textual references among
the parsed page ids. -/
theorem cleanAction_ok_refs {vars : List (String × Variable)} {items : List (String × ItemDef)}
    {parsedIds : List String} {a a' : LinkAction}
    (h : cleanAction vars items parsedIds a = .ok a') :
    ∀ r ∈ actionTextualRefs a, r ∈ parsedIds := by
  intro r hr
  cases a with
  | setDest dest =>
    simp only [actionTextualRefs] at hr
    simp only [cleanAction] at h
    cases hc : cleanLinkDest parsedIds dest with
    | error e => rw [hc] at h; exact Except.noConfusion h
    | ok d' => exact cleanLinkDest_ok_refs hc r hr
  | setVar name value => simp [actionTextualRefs] at hr
  | modNum name value => simp [actionTextualRefs] at hr
  | toggleBool name => simp [actionTextualRefs] at hr
  | prompt p => simp [actionTextualRefs] at hr
  | acquireItem name => simp [actionTextualRefs] at hr
  | dropItem name => simp [actionTextualRefs] at hr
  | useItem name => simp [actionTextualRefs] at hr

/-- An action list that cleans successfully has all its textual references
among the parsed page ids. -/
theorem cleanActions_ok_refs {vars : List (String × Variable)} {items : List (String × ItemDef)}
    {parsedIds : List String} : ∀ {acts acts' : List LinkAction},
    cleanActions vars items parsedIds acts = .ok acts' →
    ∀ r ∈ actionsTextualRefs acts, r ∈ parsedIds := by
  intro acts
  induction acts with
  | nil => intro acts' h r hr; simp [actionsTextualRefs] at hr
  | cons a rest ih =>
    intro acts' h r hr
    simp only [cleanActions] at h
    cases ha : cleanAction vars items parsedIds a with
    | error e => rw [ha] at h; exact Except.noConfusion h
    | ok a' =>
      rw [ha] at h
      cases hrest : cleanActions vars items parsedIds rest with
      | error e => rw [hrest] at h; exact Except.noConfusion h
      | ok rest' =>
        simp only [actionsTextualRefs, List.map_cons, List.flatten_cons,
          List.mem_append] at hr
        rcases hr with hr | hr
        · exact cleanAction_ok_refs ha r hr
        · exact ih hrest r hr

/-- A trigger list that cleans successfully has all its textual references
among the parsed page ids. -/
theorem cleanTriggers_ok_refs {vars : List (String × Variable)} {items : List (String × ItemDef)}
    {parsedIds : List String} : ∀ {ts ts' : List LinkTrigger},
    cleanTriggers vars items parsedIds ts = .ok ts' →
    ∀ r ∈ (ts.map (fun t => actionsTextualRefs t.actions)).flatten, r ∈ parsedIds := by
  intro ts
  induction ts with
  | nil => intro ts' h r hr; simp at hr
  | cons t rest ih =>
    intro ts' h r hr
    simp only [cleanTriggers] at h
    cases ht : cleanTrigger vars items parsedIds t with
    | error e => rw [ht] at h; exact Except.noConfusion h
    | ok t' =>
      rw [ht] at h
      cases hrest : cleanTriggers vars items parsedIds rest with
      | error e => rw [hrest] at h; exact Except.noConfusion h
      | ok rest' =>
        simp only [List.map_cons, List.flatten_cons, List.mem_append] at hr
        rcases hr with hr | hr
        · simp only [cleanTrigger] at ht
          cases hc : cleanCondition vars items t.condition with
          | error e => rw [hc] at ht; exact Except.noConfusion ht
          | ok u =>
            rw [hc] at ht
            cases hacts : cleanActions vars items parsedIds t.actions with
            | error e => rw [hacts] at ht; exact Except.noConfusion ht
            | ok acts' => exact cleanActions_ok_refs hacts r hr
        · exact ih hrest r hr

/-- A link that cleans successfully has all its textual references among
the parsed page ids. -/
theorem cleanLink_ok_refs {vars : List (String × Variable)} {items : List (String × ItemDef)}
    {parsedIds : List String} {l l' : Link}
    (h : cleanLink vars items parsedIds l = .ok l') :
    ∀ r ∈ linkTextualRefs l, r ∈ parsedIds := by
  intro r hr
  simp only [cleanLink] at h
  cases hd : cleanLinkDest parsedIds l.dest with
  | error e => rw [hd] at h; exact Except.noConfusion h
  | ok d' =>
    rw [hd] at h
    cases ht : cleanTriggers vars items parsedIds l.triggers with
    | error e => rw [ht] at h; exact Except.noConfusion h
    | ok ts' =>
      rw [ht] at h
      cases ha : cleanActions vars items parsedIds l.actions with
      | error e => rw [ha] at h; exact Except.noConfusion h
      | ok as' =>
        simp only [linkTextualRefs, List.mem_append] at hr
        rcases hr with (hr | hr) | hr
        · exact cleanLinkDest_ok_refs hd r hr
        · exact cleanTriggers_ok_refs ht r hr
        · exact cleanActions_ok_refs ha r hr

/-- A link list that cleans successfully has all its textual references
among the parsed page ids. -/
theorem cleanLinks_ok_refs {vars : List (String × Variable)} {items : List (String × ItemDef)}
    {parsedIds : List String} : ∀ {ls ls' : List Link},
    cleanLinks vars items parsedIds ls = .ok ls' →
    ∀ r ∈ (ls.map linkTextualRefs).flatten, r ∈ parsedIds := by
  intro ls
  induction ls with
  | nil => intro ls' h r hr; simp at hr
  | cons l rest ih =>
    intro ls' h r hr
    simp only [cleanLinks] at h
    cases hone : cleanLink vars items parsedIds l with
    | error e => rw [hone] at h; exact Except.noConfusion h
    | ok l' =>
      rw [hone] at h
      cases hrest : cleanLinks vars items parsedIds rest with
      | error e => rw [hrest] at h; exact Except.noConfusion h
      | ok rest' =>
        simp only [List.map_cons, List.flatten_cons, List.mem_append] at hr
        rcases hr with hr | hr
        · exact cleanLink_ok_refs hone r hr
        · exact ih hrest r hr

/-- A page that cleans successfully has all its textual references among
the parsed page ids. -/
theorem cleanPage_ok_refs {vars : List (String × Variable)} {items : List (String × ItemDef)}
    {parsedIds : List String} {p p' : Page}
    (h : cleanPage vars items parsedIds p = .ok p') :
    ∀ r ∈ pageTextualRefs p, r ∈ parsedIds := by
  simp only [cleanPage] at h
  cases hl : cleanLinks vars items parsedIds p.links with
  | error e => rw [hl] at h; exact Except.noConfusion h
  | ok links' =>
    intro r hr
    simp only [pageTextualRefs] at hr
    exact cleanLinks_ok_refs hl r hr

/-- A successful validation pass implies that every parsed page's id is
declared and every textual reference names a parsed page. -/
theorem validatePagesAux_ok_sound {pageIds parsedIds : List String}
    {vars : List (String × Variable)} {items : List (String × ItemDef)} :
    ∀ {ps ps' : List (String × Page)},
    validatePagesAux pageIds vars items parsedIds ps = .ok ps' →
    ∀ pid p, (pid, p) ∈ ps →
      pid ∈ pageIds ∧ ∀ r ∈ pageTextualRefs p, r ∈ parsedIds := by
  intro ps
  induction ps with
  | nil => intro ps' h pid p hp; simp at hp
  | cons q rest ih =>
    obtain ⟨qid, qp⟩ := q
    intro ps' h pid p hp
    simp only [validatePagesAux] at h
    split at h
    · next hdecl =>
      cases hc : cleanPage vars items parsedIds qp with
      | error e => rw [hc] at h; exact Except.noConfusion h
      | ok p' =>
        rw [hc] at h
        cases hrest : validatePagesAux pageIds vars items parsedIds rest with
        | error e => rw [hrest] at h; exact Except.noConfusion h
        | ok rest' =>
          rcases List.mem_cons.mp hp with hq | hq
          · rw [Prod.mk.injEq] at hq
            obtain ⟨h1, h2⟩ := hq
            subst h1
            subst h2
            exact ⟨hdecl, cleanPage_ok_refs hc⟩
          · exact ih hrest pid p hq
    · exact Except.noConfusion h

/-- The visible Bool form of `cleanOperation` success implies the success
itself. -/
theorem cleanOperation_ok_of_bool {vars : List (String × Variable)} {operation : Operation}
    (h : (match cleanOperation vars operation with
          | .ok _ => true
          | .error _ => false) = true) :
    cleanOperation vars operation = .ok () := by
  cases hc : cleanOperation vars operation with
  | ok u => cases u; rfl
  | error e => rw [hc] at h; simp at h

mutual

/-- A condition passing `conditionOK` cleans successfully. -/
theorem cleanCondition_of_conditionOK (vars : List (String × Variable))
    (items : List (String × ItemDef)) :
    ∀ c : Condition, conditionOK vars items c = true →
      cleanCondition vars items c = .ok () := fun c =>
  match c with
  | .and children => fun h => by
    simp only [conditionOK] at h
    simp only [cleanCondition]
    exact cleanConditionList_of_conditionListOK vars items children h
  | .or children => fun h => by
    simp only [conditionOK] at h
    simp only [cleanCondition]
    exact cleanConditionList_of_conditionListOK vars items children h
  | .op operation => fun h => by
    simp only [conditionOK] at h
    simp only [cleanCondition]
    exact cleanOperation_ok_of_bool h
  | .hasItem name => fun h => by
    simp only [conditionOK] at h
    simp only [cleanCondition, h]
    rfl

/-- A condition list passing `conditionListOK` cleans successfully. -/
theorem cleanConditionList_of_conditionListOK (vars : List (String × Variable))
    (items : List (String × ItemDef)) :
    ∀ cs : List Condition, conditionListOK vars items cs = true →
      cleanConditionList vars items cs = .ok () := fun cs =>
  match cs with
  | [] => fun _ => rfl
  | c :: rest => fun h => by
    simp only [conditionListOK, Bool.and_eq_true] at h
    simp only [cleanConditionList,
      cleanCondition_of_conditionOK vars items c h.1]
    exact cleanConditionList_of_conditionListOK vars items rest h.2

end

/-- An action passing the non-page-id checks can only fail cleaning with an
`UndeclaredPageID` naming an unparsed id. -/
theorem cleanAction_err_of_actionOK {vars : List (String × Variable)}
    {items : List (String × ItemDef)} {parsedIds : List String} {a : LinkAction} {e : Error}
    (ha : actionOtherOK vars items a = true)
    (h : cleanAction vars items parsedIds a = .error e) :
    ∃ id, e = .undeclaredPageID id ∧ id ∉ parsedIds := by
  cases a with
  | setVar name value =>
    simp only [actionOtherOK] at ha
    simp only [cleanAction] at h
    cases hv : lookupA name vars with
    | none => simp only [hv] at ha; exact Bool.noConfusion ha
    | some var =>
      simp only [hv] at ha h
      rw [if_pos ha] at h
      exact Except.noConfusion h
  | modNum name value =>
    simp only [actionOtherOK] at ha
    simp only [cleanAction] at h
    cases hv : lookupA name vars with
    | none => simp only [hv] at ha; exact Bool.noConfusion ha
    | some var =>
      simp only [hv] at ha h
      cases var with
      | num x => exact Except.noConfusion h
      | bool b => exact Bool.noConfusion ha
      | str st => exact Bool.noConfusion ha
  | toggleBool name =>
    simp only [actionOtherOK] at ha
    simp only [cleanAction] at h
    cases hv : lookupA name vars with
    | none => simp only [hv] at ha; exact Bool.noConfusion ha
    | some var =>
      simp only [hv] at ha h
      cases var with
      | num x => exact Bool.noConfusion ha
      | bool b => exact Except.noConfusion h
      | str st => exact Bool.noConfusion ha
  | setDest dest =>
    simp only [cleanAction] at h
    cases hc : cleanLinkDest parsedIds dest with
    | ok d' => rw [hc] at h; exact Except.noConfusion h
    | error e' =>
      rw [hc] at h
      cases h
      cases dest with
      | page toPage =>
        cases toPage with
        | inl s =>
          simp only [cleanLinkDest] at hc
          split at hc
          · exact Except.noConfusion hc
          · next hmem =>
            cases hc
            exact ⟨s, rfl, hmem⟩
        | inr s => exact Except.noConfusion hc
      | currentPage => exact Except.noConfusion hc
      | prevPage => exact Except.noConfusion hc
      | endGame msg => exact Except.noConfusion hc
  | prompt p =>
    simp only [actionOtherOK] at ha
    simp only [cleanAction] at h
    cases hv : p.varName with
    | none => simp only [hv] at h; exact Except.noConfusion h
    | some varName =>
      simp only [hv] at ha h
      rw [if_pos ha] at h
      exact Except.noConfusion h
  | acquireItem name =>
    simp only [actionOtherOK] at ha
    simp only [cleanAction] at h
    rw [if_pos ha] at h
    exact Except.noConfusion h
  | dropItem name =>
    simp only [actionOtherOK] at ha
    simp only [cleanAction] at h
    rw [if_pos ha] at h
    exact Except.noConfusion h
  | useItem name =>
    simp only [actionOtherOK] at ha
    simp only [cleanAction] at h
    rw [if_pos ha] at h
    exact Except.noConfusion h

/-- An action list passing the non-page-id checks can only fail cleaning
with an `UndeclaredPageID` naming an unparsed id. -/
theorem cleanActions_err_of_actionsOK {vars : List (String × Variable)}
    {items : List (String × ItemDef)} {parsedIds : List String} :
    ∀ {acts : List LinkAction} {e : Error},
    acts.all (actionOtherOK vars items) = true →
    cleanActions vars items parsedIds acts = .error e →
    ∃ id, e = .undeclaredPageID id ∧ id ∉ parsedIds := by
  intro acts
  induction acts with
  | nil => intro e ha h; exact Except.noConfusion h
  | cons a rest ih =>
    intro e ha h
    rw [List.all_cons, Bool.and_eq_true] at ha
    simp only [cleanActions] at h
    cases hone : cleanAction vars items parsedIds a with
    | error e' =>
      rw [hone] at h
      cases h
      exact cleanAction_err_of_actionOK ha.1 hone
    | ok a' =>
      rw [hone] at h
      cases hrest : cleanActions vars items parsedIds rest with
      | error e' =>
        rw [hrest] at h
        cases h
        exact ih ha.2 hrest
      | ok rest' => rw [hrest] at h; exact Except.noConfusion h

/-- A trigger list passing the non-page-id checks can only fail cleaning
with an `UndeclaredPageID` naming an unparsed id. -/
theorem cleanTriggers_err_of_triggersOK {vars : List (String × Variable)}
    {items : List (String × ItemDef)} {parsedIds : List String} :
    ∀ {ts : List LinkTrigger} {e : Error},
    ts.all (fun t =>
      conditionOK vars items t.condition && t.actions.all (actionOtherOK vars items)) = true →
    cleanTriggers vars items parsedIds ts = .error e →
    ∃ id, e = .undeclaredPageID id ∧ id ∉ parsedIds := by
  intro ts
  induction ts with
  | nil => intro e ht h; exact Except.noConfusion h
  | cons t rest ih =>
    intro e ht h
    simp only [List.all_cons, Bool.and_eq_true] at ht
    obtain ⟨⟨hcond, hacts⟩, hrestOK⟩ := ht
    simp only [cleanTriggers] at h
    cases hone : cleanTrigger vars items parsedIds t with
    | error e' =>
      rw [hone] at h
      cases h
      simp only [cleanTrigger] at hone
      rw [cleanCondition_of_conditionOK vars items t.condition hcond] at hone
      cases hca : cleanActions vars items parsedIds t.actions with
      | error e'' =>
        rw [hca] at hone
        cases hone
        exact cleanActions_err_of_actionsOK hacts hca
      | ok acts' => rw [hca] at hone; exact Except.noConfusion hone
    | ok t' =>
      rw [hone] at h
      cases hrest : cleanTriggers vars items parsedIds rest with
      | error e' =>
        rw [hrest] at h
        cases h
        exact ih hrestOK hrest
      | ok rest' => rw [hrest] at h; exact Except.noConfusion h

/-- A link passing the non-page-id checks can only fail cleaning with an
`UndeclaredPageID` naming an unparsed id. -/
theorem cleanLink_err_of_linkOK {vars : List (String × Variable)}
    {items : List (String × ItemDef)} {parsedIds : List String} {l : Link} {e : Error}
    (hl : linkOtherOK vars items l = true)
    (h : cleanLink vars items parsedIds l = .error e) :
    ∃ id, e = .undeclaredPageID id ∧ id ∉ parsedIds := by
  simp only [linkOtherOK, Bool.and_eq_true] at hl
  simp only [cleanLink] at h
  cases hd : cleanLinkDest parsedIds l.dest with
  | error e' =>
    rw [hd] at h
    cases h
    cases hdest : l.dest with
    | page toPage =>
      cases toPage with
      | inl s =>
        rw [hdest] at hd
        simp only [cleanLinkDest] at hd
        split at hd
        · exact Except.noConfusion hd
        · next hmem =>
          cases hd
          exact ⟨s, rfl, hmem⟩
      | inr s => rw [hdest] at hd; exact Except.noConfusion hd
    | currentPage => rw [hdest] at hd; exact Except.noConfusion hd
    | prevPage => rw [hdest] at hd; exact Except.noConfusion hd
    | endGame msg => rw [hdest] at hd; exact Except.noConfusion hd
  | ok d' =>
    rw [hd] at h
    cases ht : cleanTriggers vars items parsedIds l.triggers with
    | error e' =>
      rw [ht] at h
      cases h
      exact cleanTriggers_err_of_triggersOK hl.1 ht
    | ok ts' =>
      rw [ht] at h
      cases ha : cleanActions vars items parsedIds l.actions with
      | error e' =>
        rw [ha] at h
        cases h
        exact cleanActions_err_of_actionsOK hl.2 ha
      | ok as' => rw [ha] at h; exact Except.noConfusion h

/-- A link list passing the non-page-id checks can only fail cleaning with
an `UndeclaredPageID` naming an unparsed id. -/
theorem cleanLinks_err_of_linksOK {vars : List (String × Variable)}
    {items : List (String × ItemDef)} {parsedIds : List String} :
    ∀ {ls : List Link} {e : Error},
    ls.all (linkOtherOK vars items) = true →
    cleanLinks vars items parsedIds ls = .error e →
    ∃ id, e = .undeclaredPageID id ∧ id ∉ parsedIds := by
  intro ls
  induction ls with
  | nil => intro e hOK h; exact Except.noConfusion h
  | cons l rest ih =>
    intro e hOK h
    rw [List.all_cons, Bool.and_eq_true] at hOK
    simp only [cleanLinks] at h
    cases hone : cleanLink vars items parsedIds l with
    | error e' =>
      rw [hone] at h
      cases h
      exact cleanLink_err_of_linkOK hOK.1 hone
    | ok l' =>
      rw [hone] at h
      cases hrest : cleanLinks vars items parsedIds rest with
      | error e' =>
        rw [hrest] at h
        cases h
        exact ih hOK.2 hrest
      | ok rest' => rw [hrest] at h; exact Except.noConfusion h

/-- A page passing the non-page-id checks can only fail cleaning with an
`UndeclaredPageID` naming an unparsed id. -/
theorem cleanPage_err_of_pageOK {vars : List (String × Variable)}
    {items : List (String × ItemDef)} {parsedIds : List String} {p : Page} {e : Error}
    (hp : pageOtherOK vars items p = true)
    (h : cleanPage vars items parsedIds p = .error e) :
    ∃ id, e = .undeclaredPageID id ∧ id ∉ parsedIds := by
  simp only [pageOtherOK] at hp
  simp only [cleanPage] at h
  cases hl : cleanLinks vars items parsedIds p.links with
  | ok links' => rw [hl] at h; exact Except.noConfusion h
  | error e' =>
    rw [hl] at h
    cases h
    exact cleanLinks_err_of_linksOK hp hl

/-- A document set passing the non-page-id checks can only fail validation
with an `UndeclaredPageID` naming an id missing from the declared set or the
parsed set. -/
theorem validatePagesAux_err_of_otherOK {pageIds parsedIds : List String}
    {vars : List (String × Variable)} {items : List (String × ItemDef)} :
    ∀ {ps : List (String × Page)} {e : Error},
    (∀ pid p, (pid, p) ∈ ps → pageOtherOK vars items p = true) →
    validatePagesAux pageIds vars items parsedIds ps = .error e →
    ∃ id, e = .undeclaredPageID id ∧ (id ∉ pageIds ∨ id ∉ parsedIds) := by
  intro ps
  induction ps with
  | nil => intro e hOK h; exact Except.noConfusion h
  | cons q rest ih =>
    obtain ⟨qid, qp⟩ := q
    intro e hOK h
    simp only [validatePagesAux] at h
    split at h
    · next hdecl =>
      cases hc : cleanPage vars items parsedIds qp with
      | error e' =>
        rw [hc] at h
        cases h
        obtain ⟨id, he, hmem⟩ :=
          cleanPage_err_of_pageOK (hOK qid qp (List.mem_cons_self _ _)) hc
        exact ⟨id, he, Or.inr hmem⟩
      | ok p' =>
        rw [hc] at h
        cases hrest : validatePagesAux pageIds vars items parsedIds rest with
        | error e' =>
          rw [hrest] at h
          cases h
          exact ih (fun pid p hp => hOK pid p (List.mem_cons_of_mem _ hp)) hrest
        | ok rest' => rw [hrest] at h; exact Except.noConfusion h
    · next hdecl =>
      cases h
      exact ⟨qid, rfl, Or.inl hdecl⟩

/-- C7 counterexample: a declared page whose first link carries an
undeclared-variable action and whose second link's destination is an
undeclared/unparsed page id fails the load with `UndeclaredVariable`, not
`UndeclaredPageID` — so the claim's universally promised error kind is
wrong, even though the load does fail. -/
theorem validatePages_wrong_error_kind :
    validatePages ["main"] [] [] c7Pages = .error (.undeclaredVariable "nope")
      ∧ isUndeclaredPageIDErr (validatePages ["main"] [] [] c7Pages) = false
      ∧ "ghost" ∈ pageTextualRefs c7MainPage
      ∧ "ghost" ∉ (c7Pages.map Prod.fst)
      ∧ ("main", c7MainPage) ∈ c7Pages :=
  ⟨rfl, rfl, by decide, by decide, List.mem_singleton.mpr rfl⟩

/-- C7 (amended): a document set in which some parsed page's id is
undeclared or some textual destination names no parsed page always fails
the load — no graph is returned — and, when the document set passes every
other validation, the error is an `UndeclaredPageID` naming a missing id. -/
theorem validatePages_pageId_defect_fails :
    (∀ (pageIds : List String) (vars : List (String × Variable))
        (items : List (String × ItemDef)) (pages : List (String × Page)),
      hasPageIdDefect pageIds pages →
      ∃ e, validatePages pageIds vars items pages = .error e)
    ∧ (∀ (pageIds : List String) (vars : List (String × Variable))
        (items : List (String × ItemDef)) (pages : List (String × Page)),
      hasPageIdDefect pageIds pages →
      allPagesOtherOK vars items pages →
      ∃ id, validatePages pageIds vars items pages = .error (.undeclaredPageID id)
        ∧ (id ∉ pageIds ∨ id ∉ pages.map Prod.fst)) := by
  have failsOk : ∀ (pageIds : List String) (vars : List (String × Variable))
      (items : List (String × ItemDef)) (pages : List (String × Page))
      (cleaned : List (String × Page)),
      validatePages pageIds vars items pages = .ok cleaned →
      ¬hasPageIdDefect pageIds pages := by
    intro pageIds vars items pages cleaned h hdefect
    rcases hdefect with ⟨pid, p, hp, hnd⟩ | ⟨pid, p, r, hp, hr, hnr⟩
    · exact hnd (validatePagesAux_ok_sound h pid p hp).1
    · exact hnr ((validatePagesAux_ok_sound h pid p hp).2 r hr)
  constructor
  · intro pageIds vars items pages hdefect
    cases h : validatePages pageIds vars items pages with
    | error e => exact ⟨e, rfl⟩
    | ok cleaned => exact absurd hdefect (failsOk _ _ _ _ _ h)
  · intro pageIds vars items pages hdefect hOK
    cases h : validatePages pageIds vars items pages with
    | ok cleaned => exact absurd hdefect (failsOk _ _ _ _ _ h)
    | error e =>
      obtain ⟨id, he, hmiss⟩ := validatePagesAux_err_of_otherOK hOK h
      subst he
      exact ⟨id, rfl, hmiss⟩

/-- C7 witness: a document set whose only defect is a destination naming
the unparsed page "ghost" fails with an `UndeclaredPageID` naming a missing
id. -/
theorem validatePages_pageId_defect_fails_witness :
    ∃ id, validatePages ["main"] [] [] c7CleanPages = .error (.undeclaredPageID id)
      ∧ (id ∉ ["main"] ∨ id ∉ c7CleanPages.map Prod.fst) :=
  validatePages_pageId_defect_fails.2 ["main"] [] [] c7CleanPages
    (Or.inr ⟨"main", c7CleanPage, "ghost", List.mem_singleton.mpr rfl, by decide, by decide⟩)
    (by
      intro pid p hp
      simp only [c7CleanPages, List.mem_singleton] at hp
      rw [Prod.mk.injEq] at hp
      rw [hp.2]
      decide)

/-!
C8 — self-loop destinations.
-/

/-- C8: applying a `Page` destination whose identity equals the current
page's identity is a no-op: the history stack is not grown, the arrived-via
link index is unchanged, and no terminal message is produced. -/
theorem evalLinkDest_selfLoop_noop (g : Game) (idx : Nat) :
    evalLinkDest g (.page (.inr g.currentPage)) idx = .ok (g, none) := by
  simp [evalLinkDest]

/-!
C9 — end-game destinations.
-/

/-- C9: applying an end-game destination clears the arrived-via link index,
reports the message as the terminal result, and leaves the current page and
the history stack untouched. -/
theorem evalLinkDest_endGame_frame (g : Game) (msg : String) (idx : Nat) :
    evalLinkDest g (.endGame msg) idx = .ok ({ g with currentLinkIdx := none }, some msg)
      ∧ ({ g with currentLinkIdx := none } : Game).currentPage = g.currentPage
      ∧ ({ g with currentLinkIdx := none } : Game).history = g.history
      ∧ ({ g with currentLinkIdx := none } : Game).currentLinkIdx = none :=
  ⟨rfl, rfl, rfl, rfl⟩

end Storygamer
